import Mathlib

/-
Shallow embedding of the simulated RF-signal scanning tool
(`rf_detector/detector.py`, `rf_detector/cli.py`, `visualizer.py`) and
verification of the specified properties of its scan-aggregation,
summary-statistics, serialization, and analysis logic.

Conventions:
* Python `int` values are modelled as `Int` (strengths, channels, durations)
  or `Nat` (counts).
* Python `int(x / y)` on an exact quotient truncates toward zero; it is
  modelled with `Int.tdiv` (T-division).
* Python dicts are modelled as insertion-ordered association lists; a dict
  with a statically known key layout is modelled as a structure, with an
  `Option` field for a key that is present in one branch only.
* Randomness (`random.randint`, `random.choice`, `random.sample`) is
  modelled by an oracle supplying the draws; contracts of the random
  primitives (value ranges, sample membership) appear as hypotheses.
* Wall-clock time in the scan loop is modelled by a fuel counter bounding
  the number of outer iterations the time budget allows, and the shared
  `is_scanning` flag by a function from flag-read indices to `Bool`.
-/

/-- WiFi channels for the 2.4GHz band: `CHANNELS_2G = list(range(1, 14))`. -/
def CHANNELS_2G : List Int := (List.range' 1 13).map Int.ofNat

/-- WiFi channels for the 5GHz band: the fixed 25-channel list. -/
def CHANNELS_5G : List Int :=
  [36, 40, 44, 48, 52, 56, 60, 64, 100, 104, 108, 112, 116, 120, 124, 128,
   132, 136, 140, 144, 149, 153, 157, 161, 165]

/-- A device-sighting record as built by `RFDetector._simulate_device`:
`{'channel': ..., 'strength': ..., 'ssid': ..., 'band': ..., 'security': ...,
'first_seen': ..., 'last_seen': ...}`. -/
structure Device where
  channel : Int
  strength : Int
  ssid : Option String
  band : String
  security : String
  first_seen : String
  last_seen : String
  deriving DecidableEq, Repr

/-- The Python value stored under `summary['channels']`: the non-empty branch
of `_generate_summary` stores `list(channels)` (a JSON-serializable list),
while the empty branch stores the literal `set()` (a Python set object). -/
inductive PyChannels where
  | pyList : List Int → PyChannels
  | pySet : Finset Int → PyChannels
  deriving DecidableEq

/-- Boolean membership test for the value stored under `summary['channels']`. -/
def PyChannels.memB (c : Int) : PyChannels → Bool
  | .pyList l => decide (c ∈ l)
  | .pySet s => decide (c ∈ s)

/-- The `summary` dict of `RFDetector._generate_summary`. The
`min_strength` key is present only in the non-empty branch, hence an
`Option` field. -/
structure Summary where
  total_signals : Nat
  avg_strength : Int
  max_strength : Int
  min_strength : Option Int
  channels : PyChannels
  duration : Int
  deriving DecidableEq

/-- The `scan_info` dict written at the top of `RFDetector.scan_band`. -/
structure ScanInfo where
  band : String
  channels : List Int
  start_time : String
  duration : Int
  deriving DecidableEq

/-- The `results` dict of an `RFDetector` after a scan. -/
structure ScanResult where
  devices : List Device
  scan_info : ScanInfo
  summary : Summary
  deriving DecidableEq

/-- Embedding of `RFDetector._generate_summary`, as a function of the
accumulated devices and of `scan_info['duration']`.  In the non-empty
branch, Python's `max(strengths)` / `min(strengths)` are the left folds of
`max` / `min` over the list starting from its first element, and
`int(sum(strengths) / len(strengths))` truncates the exact mean toward
zero (`Int.tdiv`).  `list(set(...))` is modelled as the deduplicated list
of channels (set iteration order is implementation-defined; all theorems
about it are membership-based). -/
def generate_summary (devices : List Device) (duration : Int) : Summary :=
  match devices with
  | [] =>
    { total_signals := 0
      avg_strength := 0
      max_strength := 0
      min_strength := none
      channels := PyChannels.pySet ∅
      duration := 0 }
  | d :: ds =>
    { total_signals := (d :: ds).length
      avg_strength :=
        Int.tdiv (((d :: ds).map Device.strength).sum) (((d :: ds).length : Int))
      max_strength := (ds.map Device.strength).foldl max d.strength
      min_strength := some ((ds.map Device.strength).foldl min d.strength)
      channels := PyChannels.pyList (((d :: ds).map Device.channel).dedup)
      duration := duration }

/-- The seed of a left `max`-fold is a lower bound of the fold. -/
theorem le_foldl_max (l : List Int) : ∀ a : Int, a ≤ l.foldl max a := by
  induction l with
  | nil => intro a; exact le_refl a
  | cons h t ih => intro a; exact le_trans (le_max_left a h) (ih (max a h))

/-- Every list element is a lower bound of a left `max`-fold over the list. -/
theorem mem_le_foldl_max (l : List Int) :
    ∀ (a x : Int), x ∈ l → x ≤ l.foldl max a := by
  induction l with
  | nil => intro a x hx; cases hx
  | cons h t ih =>
    intro a x hx
    rcases List.mem_cons.mp hx with rfl | hx
    · exact le_trans (le_max_right a x) (le_foldl_max t (max a x))
    · exact ih (max a h) x hx

/-- A left `max`-fold returns its seed or one of the list elements. -/
theorem foldl_max_mem (l : List Int) :
    ∀ a : Int, l.foldl max a = a ∨ l.foldl max a ∈ l := by
  induction l with
  | nil => intro a; exact Or.inl rfl
  | cons h t ih =>
    intro a
    rcases ih (max a h) with heq | hmem
    · rcases max_choice a h with h1 | h2
      · left; rw [List.foldl_cons, heq, h1]
      · right; rw [List.foldl_cons, heq, h2]; exact List.mem_cons_self h t
    · right; exact List.mem_cons_of_mem h hmem

/-- The seed of a left `min`-fold is an upper bound of the fold. -/
theorem foldl_min_le (l : List Int) : ∀ a : Int, l.foldl min a ≤ a := by
  induction l with
  | nil => intro a; exact le_refl a
  | cons h t ih => intro a; exact le_trans (ih (min a h)) (min_le_left a h)

/-- Every list element is an upper bound of a left `min`-fold over the list. -/
theorem foldl_min_le_mem (l : List Int) :
    ∀ (a x : Int), x ∈ l → l.foldl min a ≤ x := by
  induction l with
  | nil => intro a x hx; cases hx
  | cons h t ih =>
    intro a x hx
    rcases List.mem_cons.mp hx with rfl | hx
    · exact le_trans (foldl_min_le t (min a x)) (min_le_right a x)
    · exact ih (min a h) x hx

/-- A left `min`-fold returns its seed or one of the list elements. -/
theorem foldl_min_mem (l : List Int) :
    ∀ a : Int, l.foldl min a = a ∨ l.foldl min a ∈ l := by
  induction l with
  | nil => intro a; exact Or.inl rfl
  | cons h t ih =>
    intro a
    rcases ih (min a h) with heq | hmem
    · rcases min_choice a h with h1 | h2
      · left; rw [List.foldl_cons, heq, h1]
      · right; rw [List.foldl_cons, heq, h2]; exact List.mem_cons_self h t
    · right; exact List.mem_cons_of_mem h hmem

/-- A fixed concrete device record used as input for concrete evaluations. -/
def testDevice (c s : Int) : Device :=
  { channel := c
    strength := s
    ssid := none
    band := "2.4G"
    security := "WPA2"
    first_seen := "t"
    last_seen := "t" }

/-- Truncation toward zero of a rational number: the semantics of Python's
`int()` conversion applied to an exact quotient.  Used to state the
corrected form of the mean claim. -/
def ratTrunc (q : ℚ) : Int := if 0 ≤ q then ⌊q⌋ else ⌈q⌉

/-- `Int.tdiv` by a positive denominator computes the truncation toward
zero of the exact rational quotient. -/
theorem tdiv_eq_ratTrunc (num : Int) (den : Nat) (hden : 0 < den) :
    Int.tdiv num (den : Int) = ratTrunc ((num : ℚ) / (den : ℚ)) := by
  have hdq : (0 : ℚ) < (den : ℚ) := by exact_mod_cast hden
  rcases le_or_lt 0 num with hn | hn
  · have hq : (0 : ℚ) ≤ (num : ℚ) / (den : ℚ) :=
      div_nonneg (by exact_mod_cast hn) (le_of_lt hdq)
    rw [ratTrunc, if_pos hq, Rat.floor_intCast_div_natCast,
      Int.tdiv_eq_ediv hn (Int.natCast_nonneg den)]
  · have hq : (num : ℚ) / (den : ℚ) < 0 :=
      div_neg_of_neg_of_pos (by exact_mod_cast hn) hdq
    rw [ratTrunc, if_neg (not_le.mpr hq)]
    have h1 : Int.tdiv num (den : Int) = -Int.tdiv (-num) (den : Int) := by
      rw [Int.neg_tdiv, neg_neg]
    rw [h1, Int.tdiv_eq_ediv (by omega) (Int.natCast_nonneg den)]
    have h2 : (num : ℚ) / (den : ℚ) = -(((-num : Int) : ℚ) / (den : ℚ)) := by
      push_cast
      ring
    rw [h2, Int.ceil_neg, ← Rat.floor_intCast_div_natCast (-num) den]

/-- Claim C1 (counterexample): on the spec's own example strengths
`[-90, -21]` the code's `avg_strength` is `-55` (truncation toward zero),
which is not the floor of the arithmetic mean `-55.5` (the floor is `-56`),
so "avgStrength equals the floor of the arithmetic mean" fails. -/
theorem avg_strength_floor_counterexample :
    ¬ ((generate_summary [testDevice 1 (-90), testDevice 6 (-21)] 60).avg_strength =
        ⌊((([testDevice 1 (-90), testDevice 6 (-21)].map Device.strength).sum : ℚ) /
          (([testDevice 1 (-90), testDevice 6 (-21)] : List Device).length : ℚ))⌋) := by
  intro hEq
  have hsum : ([testDevice 1 (-90), testDevice 6 (-21)].map Device.strength).sum =
      (-111 : Int) := rfl
  have hlen : ([testDevice 1 (-90), testDevice 6 (-21)] : List Device).length = 2 := rfl
  rw [hsum, hlen, Rat.floor_intCast_div_natCast] at hEq
  have havg : (generate_summary [testDevice 1 (-90), testDevice 6 (-21)] 60).avg_strength =
      -55 := rfl
  rw [havg] at hEq
  exact absurd hEq (by decide)

/-- Claim C1 (amended): for every non-empty devices sequence,
`summary['avg_strength']` equals the truncation toward zero of the
arithmetic mean of the strengths (Python `int()` semantics), and on the
spec's example strengths `[-90, -21]` (mean `-55.5`) the computed value is
`-55`. -/
theorem avg_strength_truncated_mean (devices : List Device) (dur : Int)
    (h : devices ≠ []) :
    (generate_summary devices dur).avg_strength =
      ratTrunc (((devices.map Device.strength).sum : ℚ) / ((devices.length : ℚ))) ∧
    (generate_summary [testDevice 1 (-90), testDevice 6 (-21)] 60).avg_strength = -55 := by
  refine ⟨?_, rfl⟩
  match devices, h with
  | d :: ds, _ =>
    exact tdiv_eq_ratTrunc (((d :: ds).map Device.strength).sum) ((d :: ds).length)
      (by simp)

/-- Witness for the amended claim C1 at the spec's example input. -/
theorem avg_strength_truncated_mean_witness :
    ([testDevice 1 (-90), testDevice 6 (-21)] : List Device) ≠ [] ∧
    ((generate_summary [testDevice 1 (-90), testDevice 6 (-21)] 60).avg_strength =
      ratTrunc ((([testDevice 1 (-90), testDevice 6 (-21)].map Device.strength).sum : ℚ) /
        ((([testDevice 1 (-90), testDevice 6 (-21)] : List Device).length : ℚ))) ∧
     (generate_summary [testDevice 1 (-90), testDevice 6 (-21)] 60).avg_strength = -55) :=
  ⟨by decide, avg_strength_truncated_mean _ 60 (by decide)⟩

/-- Claim C2: for every non-empty devices sequence, the summary's
`total_signals` is the number of devices, `max_strength` is the maximum
strength, `min_strength` is present and is the minimum strength, and
`channels` holds exactly the distinct channel values observed
(order-independent, duplicate-free). -/
theorem summary_aggregates_correct (devices : List Device) (dur : Int)
    (h : devices ≠ []) :
    (generate_summary devices dur).total_signals = devices.length ∧
    ((generate_summary devices dur).max_strength ∈ devices.map Device.strength ∧
      ∀ x ∈ devices.map Device.strength,
        x ≤ (generate_summary devices dur).max_strength) ∧
    (∃ m, (generate_summary devices dur).min_strength = some m ∧
      m ∈ devices.map Device.strength ∧
      ∀ x ∈ devices.map Device.strength, m ≤ x) ∧
    (∃ cl, (generate_summary devices dur).channels = PyChannels.pyList cl ∧
      cl.Nodup ∧ ∀ c : Int, c ∈ cl ↔ c ∈ devices.map Device.channel) := by
  match devices, h with
  | d :: ds, _ =>
    refine ⟨rfl, ⟨?_, ?_⟩, ⟨(ds.map Device.strength).foldl min d.strength, rfl, ?_, ?_⟩,
      ⟨((d :: ds).map Device.channel).dedup, rfl, List.nodup_dedup _,
        fun c => List.mem_dedup⟩⟩
    · show (ds.map Device.strength).foldl max d.strength ∈
        d.strength :: ds.map Device.strength
      rcases foldl_max_mem (ds.map Device.strength) d.strength with heq | hmem
      · rw [heq]; exact List.mem_cons_self _ _
      · exact List.mem_cons_of_mem _ hmem
    · intro x hx
      rcases List.mem_cons.mp hx with rfl | hx
      · exact le_foldl_max (ds.map Device.strength) d.strength
      · exact mem_le_foldl_max (ds.map Device.strength) d.strength x hx
    · show (ds.map Device.strength).foldl min d.strength ∈
        d.strength :: ds.map Device.strength
      rcases foldl_min_mem (ds.map Device.strength) d.strength with heq | hmem
      · rw [heq]; exact List.mem_cons_self _ _
      · exact List.mem_cons_of_mem _ hmem
    · intro x hx
      rcases List.mem_cons.mp hx with rfl | hx
      · exact foldl_min_le (ds.map Device.strength) d.strength
      · exact foldl_min_le_mem (ds.map Device.strength) d.strength x hx

/-- Witness for claim C2 on a concrete two-device scan result. -/
theorem summary_aggregates_correct_witness :
    ([testDevice 1 (-50), testDevice 6 (-60)] : List Device) ≠ [] ∧
    ((generate_summary [testDevice 1 (-50), testDevice 6 (-60)] 60).total_signals =
      ([testDevice 1 (-50), testDevice 6 (-60)] : List Device).length ∧
    ((generate_summary [testDevice 1 (-50), testDevice 6 (-60)] 60).max_strength ∈
        [testDevice 1 (-50), testDevice 6 (-60)].map Device.strength ∧
      ∀ x ∈ [testDevice 1 (-50), testDevice 6 (-60)].map Device.strength,
        x ≤ (generate_summary [testDevice 1 (-50), testDevice 6 (-60)] 60).max_strength) ∧
    (∃ m, (generate_summary [testDevice 1 (-50), testDevice 6 (-60)] 60).min_strength =
        some m ∧
      m ∈ [testDevice 1 (-50), testDevice 6 (-60)].map Device.strength ∧
      ∀ x ∈ [testDevice 1 (-50), testDevice 6 (-60)].map Device.strength, m ≤ x) ∧
    (∃ cl, (generate_summary [testDevice 1 (-50), testDevice 6 (-60)] 60).channels =
        PyChannels.pyList cl ∧
      cl.Nodup ∧
      ∀ c : Int, c ∈ cl ↔ c ∈ [testDevice 1 (-50), testDevice 6 (-60)].map Device.channel)) :=
  ⟨by decide, summary_aggregates_correct _ 60 (by decide)⟩

/-- Claim C4: summary generation on an empty devices sequence is total
(never raises) and reports `total_signals = 0`, `avg_strength = 0`,
`max_strength = 0`, and an empty channel collection, for every requested
duration. -/
theorem empty_summary_fields (dur : Int) :
    (generate_summary [] dur).total_signals = 0 ∧
    (generate_summary [] dur).avg_strength = 0 ∧
    (generate_summary [] dur).max_strength = 0 ∧
    ∀ c : Int, (generate_summary [] dur).channels.memB c = false := by
  refine ⟨rfl, rfl, rfl, ?_⟩
  intro c
  simp [generate_summary, PyChannels.memB]

/-- The random draws consumed by one call of `RFDetector._simulate_device`:
`random.randint(-90, -20)` for the strength, `random.choice(ssids)`,
`random.choice([...])` for the security type, and the two
`datetime.now().isoformat()` timestamps. -/
structure Draws where
  strength : Int
  ssid : Option String
  security : String
  now1 : String
  now2 : String
  deriving DecidableEq, Repr

/-- The randomness consumed by `RFDetector.scan_band`: for each outer round
`r`, `sample r` is the result of `random.sample(channels, min(3,
len(channels)))`, and `draws r p` are the draws of the `p`-th
`_simulate_device` call of that round. -/
structure Oracle where
  sample : Nat → List Int
  draws : Nat → Nat → Draws

/-- Embedding of `RFDetector._simulate_device`: builds the sighting record
from the channel argument, the band argument, and the random draws. -/
def simulate_device (channel : Int) (band : String) (dr : Draws) : Device :=
  { channel := channel
    strength := dr.strength
    ssid := dr.ssid
    band := band
    security := dr.security
    first_seen := dr.now1
    last_seen := dr.now2 }

/-- Devices appended by the inner `for channel in random.sample(...)` loop
of `RFDetector.scan_band`.  `flag i` is the value of `self.is_scanning` at
the `i`-th read of the flag; the loop reads the flag before simulating each
device and breaks as soon as it is false. -/
def innerScanDevs (band : String) (flag : Nat → Bool) (dr : Nat → Draws) :
    List Int → Nat → Nat → List Device
  | [], _, _ => []
  | c :: cs, p, i =>
    if flag i then
      simulate_device c band (dr p) :: innerScanDevs band flag dr cs (p + 1) (i + 1)
    else []

/-- Index of the next flag read after the inner loop of
`RFDetector.scan_band` finishes or breaks. -/
def innerScanNext (flag : Nat → Bool) : List Int → Nat → Nat
  | [], i => i
  | _ :: cs, i => if flag i then innerScanNext flag cs (i + 1) else i + 1

/-- The outer `while time.time() - start_time < duration and
self.is_scanning` loop of `RFDetector.scan_band`.  `fuel` counts the outer
iterations the time budget still allows, `r` the current round, and `i` the
index of the next flag read (the `while` condition reads the flag once per
iteration before the inner loop runs). -/
def outerScan (band : String) (flag : Nat → Bool) (oracle : Oracle) :
    Nat → Nat → Nat → List Device
  | 0, _, _ => []
  | fuel + 1, r, i =>
    if flag i then
      innerScanDevs band flag (oracle.draws r) (oracle.sample r) 0 (i + 1) ++
        outerScan band flag oracle fuel (r + 1)
          (innerScanNext flag (oracle.sample r) (i + 1))
    else []

/-- Channel-set resolution at the top of `RFDetector.scan_band`:
`channels = self.CHANNELS_2G if band == '2.4G' else self.CHANNELS_5G`,
then `if band == 'all': channels = self.CHANNELS_2G + self.CHANNELS_5G`. -/
def resolveChannels (band : String) : List Int :=
  let channels := if band = "2.4G" then CHANNELS_2G else CHANNELS_5G
  if band = "all" then CHANNELS_2G ++ CHANNELS_5G else channels

/-- Embedding of `RFDetector.scan_band` on a fresh detector: records the
scan info, runs the timed sampling loop accumulating devices, and generates
the summary over the accumulated devices. -/
def scan_band (band : String) (duration : Int) (start_time : String)
    (flag : Nat → Bool) (oracle : Oracle) (fuel : Nat) : ScanResult :=
  { devices := outerScan band flag oracle fuel 0 0
    scan_info :=
      { band := band
        channels := resolveChannels band
        start_time := start_time
        duration := duration }
    summary := generate_summary (outerScan band flag oracle fuel 0 0) duration }

/-- Every device appended by the inner loop was simulated from one of the
sampled channels of the round. -/
theorem mem_innerScanDevs (band : String) (flag : Nat → Bool) (dr : Nat → Draws)
    (dev : Device) :
    ∀ (cs : List Int) (p i : Nat), dev ∈ innerScanDevs band flag dr cs p i →
      ∃ c ∈ cs, ∃ q, dev = simulate_device c band (dr q) := by
  intro cs
  induction cs with
  | nil => intro p i h; simp [innerScanDevs] at h
  | cons c cs ih =>
    intro p i h
    by_cases hf : flag i
    · rw [innerScanDevs, if_pos hf] at h
      rcases List.mem_cons.mp h with h1 | h2
      · exact ⟨c, List.mem_cons_self c cs, p, h1⟩
      · obtain ⟨c', hc', q, hq⟩ := ih (p + 1) (i + 1) h2
        exact ⟨c', List.mem_cons_of_mem c hc', q, hq⟩
    · rw [innerScanDevs, if_neg hf] at h
      cases h

/-- Every device accumulated by the outer scan loop was simulated from a
channel sampled in some round, with the draws of that round. -/
theorem mem_outerScan (band : String) (flag : Nat → Bool) (oracle : Oracle)
    (dev : Device) :
    ∀ (fuel r i : Nat), dev ∈ outerScan band flag oracle fuel r i →
      ∃ rr, ∃ c ∈ oracle.sample rr, ∃ q,
        dev = simulate_device c band (oracle.draws rr q) := by
  intro fuel
  induction fuel with
  | zero => intro r i h; simp [outerScan] at h
  | succ f ih =>
    intro r i h
    by_cases hf : flag i
    · rw [outerScan, if_pos hf] at h
      rcases List.mem_append.mp h with h1 | h2
      · obtain ⟨c, hc, q, hq⟩ :=
          mem_innerScanDevs band flag (oracle.draws r) dev (oracle.sample r) 0 (i + 1) h1
        exact ⟨r, c, hc, q, hq⟩
      · exact ih (r + 1) (innerScanNext flag (oracle.sample r) (i + 1)) h2
    · rw [outerScan, if_neg hf] at h
      cases h

/-- Claim C5: for every scan run with a recognized band, under the contracts
of the random primitives (`random.randint(-90, -20)` yields values in
`[-90, -20]`; `random.sample(channels, k)` yields members of `channels`),
every device appended to the scan result has its strength in `[-90, -20]`
and its channel in the resolved channel set of the band; moreover the
resolved sets are channels 1–13 for `"2.4G"`, the fixed 25-channel set for
`"5G"`, and their union for `"all"`. -/
theorem scan_device_invariants (band : String) (dur : Int) (st : String)
    (flag : Nat → Bool) (oracle : Oracle) (fuel : Nat)
    (hband : band = "2.4G" ∨ band = "5G" ∨ band = "all")
    (hstr : ∀ r p : Nat, -90 ≤ (oracle.draws r p).strength ∧
      (oracle.draws r p).strength ≤ -20)
    (hsample : ∀ r : Nat, ∀ c ∈ oracle.sample r, c ∈ resolveChannels band)
    (dev : Device)
    (hdev : dev ∈ (scan_band band dur st flag oracle fuel).devices) :
    (-90 ≤ dev.strength ∧ dev.strength ≤ -20) ∧
    dev.channel ∈ resolveChannels band ∧
    (resolveChannels "2.4G" = CHANNELS_2G ∧
     resolveChannels "5G" = CHANNELS_5G ∧
     resolveChannels "all" = CHANNELS_2G ++ CHANNELS_5G) := by
  obtain ⟨rr, c, hc, q, hq⟩ :=
    mem_outerScan band flag oracle dev fuel 0 0 hdev
  subst hq
  exact ⟨hstr rr q, hsample rr c hc, rfl, rfl, rfl⟩

/-- A fixed set of draws used by the concrete oracles of the witnesses. -/
def testDraws : Draws :=
  { strength := -50, ssid := none, security := "WPA2", now1 := "t", now2 := "t" }

/-- Concrete oracle for the claim C5 witness: every round samples channel 1
and every simulated device draws `testDraws`. -/
def oracleC5 : Oracle := { sample := fun _ => [1], draws := fun _ _ => testDraws }

/-- Witness for claim C5: a one-round scan of the 2.4GHz band with a
concrete oracle; the single appended device satisfies the invariants. -/
theorem scan_device_invariants_witness :
    (("2.4G" : String) = "2.4G" ∨ ("2.4G" : String) = "5G" ∨ ("2.4G" : String) = "all") ∧
    (∀ r p : Nat, -90 ≤ (oracleC5.draws r p).strength ∧
      (oracleC5.draws r p).strength ≤ -20) ∧
    (∀ r : Nat, ∀ c ∈ oracleC5.sample r, c ∈ resolveChannels "2.4G") ∧
    simulate_device 1 "2.4G" testDraws ∈
      (scan_band "2.4G" 60 "t0" (fun _ => true) oracleC5 1).devices ∧
    ((-90 ≤ (simulate_device 1 "2.4G" testDraws).strength ∧
      (simulate_device 1 "2.4G" testDraws).strength ≤ -20) ∧
    (simulate_device 1 "2.4G" testDraws).channel ∈ resolveChannels "2.4G" ∧
    (resolveChannels "2.4G" = CHANNELS_2G ∧
     resolveChannels "5G" = CHANNELS_5G ∧
     resolveChannels "all" = CHANNELS_2G ++ CHANNELS_5G)) :=
  ⟨Or.inl rfl,
   by
     intro r p
     show -90 ≤ testDraws.strength ∧ testDraws.strength ≤ -20
     decide,
   by
     intro r c hc
     rcases List.mem_singleton.mp hc with rfl
     decide,
   by decide,
   scan_device_invariants "2.4G" 60 "t0" (fun _ => true) oracleC5 1
     (Or.inl rfl)
     (by
       intro r p
       show -90 ≤ testDraws.strength ∧ testDraws.strength ≤ -20
       decide)
     (by
       intro r c hc
       rcases List.mem_singleton.mp hc with rfl
       decide)
     (simulate_device 1 "2.4G" testDraws) (by decide)⟩

/-- Claim C6: `stop_scan` only ever sets `is_scanning` to `False`, so the
flag is false-stable across successive reads (`hmono`).  If the flag has
been cleared by read `n`, then: the outer loop run from any later read
index appends nothing and terminates at that very flag check; the inner
loop likewise breaks at its next flag check appending nothing; the devices
of the returned result are exactly the devices the loop accumulated; and
the returned summary is computed over exactly those devices. -/
theorem stop_scan_halts (band : String) (dur : Int) (st : String)
    (flag : Nat → Bool) (oracle : Oracle) (fuel rnd i n : Nat)
    (cs : List Int) (p : Nat)
    (hmono : ∀ j k : Nat, j ≤ k → flag j = false → flag k = false)
    (hn : flag n = false) (hi : n ≤ i) :
    outerScan band flag oracle fuel rnd i = [] ∧
    innerScanDevs band flag (oracle.draws rnd) cs p i = [] ∧
    (scan_band band dur st flag oracle fuel).devices =
      outerScan band flag oracle fuel 0 0 ∧
    (scan_band band dur st flag oracle fuel).summary =
      generate_summary ((scan_band band dur st flag oracle fuel).devices) dur := by
  have hfi : flag i = false := hmono n i hi hn
  refine ⟨?_, ?_, rfl, rfl⟩
  · cases fuel with
    | zero => rfl
    | succ f => rw [outerScan, if_neg (by rw [hfi]; exact Bool.false_ne_true)]
  · cases cs with
    | nil => rfl
    | cons c cs => rw [innerScanDevs, if_neg (by rw [hfi]; exact Bool.false_ne_true)]

/-- The flag used by the claim C6 witness: `is_scanning` is true for the
first two reads and cleared from the third read on. -/
def flagC6 : Nat → Bool := fun i => decide (i < 2)

/-- Witness for claim C6: with the concrete flag cleared from read 2 on, a
scan with time budget for three rounds appends nothing from read 2 onward,
and the result's devices and summary are as claimed. -/
theorem stop_scan_halts_witness :
    (∀ j k : Nat, j ≤ k → flagC6 j = false → flagC6 k = false) ∧
    flagC6 2 = false ∧ (2 : Nat) ≤ 2 ∧
    (outerScan "2.4G" flagC6 oracleC5 3 1 2 = [] ∧
     innerScanDevs "2.4G" flagC6 (oracleC5.draws 1) [1, 6] 0 2 = [] ∧
     (scan_band "2.4G" 60 "t0" flagC6 oracleC5 3).devices =
       outerScan "2.4G" flagC6 oracleC5 3 0 0 ∧
     (scan_band "2.4G" 60 "t0" flagC6 oracleC5 3).summary =
       generate_summary ((scan_band "2.4G" 60 "t0" flagC6 oracleC5 3).devices) 60) :=
  have hmono : ∀ j k : Nat, j ≤ k → flagC6 j = false → flagC6 k = false := by
    intro j k hjk hj
    have hj' : ¬ j < 2 := of_decide_eq_false hj
    exact decide_eq_false (by omega)
  ⟨hmono, by decide, le_refl 2,
   stop_scan_halts "2.4G" 60 "t0" flagC6 oracleC5 3 1 2 2 [1, 6] 0 hmono
     (by decide) (le_refl 2)⟩

/-- Claim C9: for a band outside `{"2.4G", "5G", "all"}`, `scan_band` does
not fail: channel resolution silently defaults to the 5GHz channel set and
the scan proceeds, with the devices produced by the normal sampling loop. -/
theorem unknown_band_defaults (band : String) (dur : Int) (st : String)
    (flag : Nat → Bool) (oracle : Oracle) (fuel : Nat)
    (h1 : band ≠ "2.4G") (h2 : band ≠ "5G") (h3 : band ≠ "all") :
    resolveChannels band = CHANNELS_5G ∧
    (scan_band band dur st flag oracle fuel).scan_info.channels = CHANNELS_5G ∧
    (scan_band band dur st flag oracle fuel).devices =
      outerScan band flag oracle fuel 0 0 := by
  have hres : resolveChannels band = CHANNELS_5G := by
    rw [resolveChannels]
    simp only [if_neg h1, if_neg h3]
  exact ⟨hres, hres, rfl⟩

/-- Witness for claim C9 at the unrecognized band `"3G"`. -/
theorem unknown_band_defaults_witness :
    ("3G" : String) ≠ "2.4G" ∧ ("3G" : String) ≠ "5G" ∧ ("3G" : String) ≠ "all" ∧
    (resolveChannels "3G" = CHANNELS_5G ∧
     (scan_band "3G" 60 "t0" (fun _ => true) oracleC5 0).scan_info.channels =
       CHANNELS_5G ∧
     (scan_band "3G" 60 "t0" (fun _ => true) oracleC5 0).devices =
       outerScan "3G" (fun _ => true) oracleC5 0 0 0) :=
  ⟨by decide, by decide, by decide,
   unknown_band_defaults "3G" 60 "t0" (fun _ => true) oracleC5 0
     (by decide) (by decide) (by decide)⟩

/-- Claim C10: when the devices list of a scan result is empty, the
generated summary omits the `min_strength` key entirely and reports a
duration of `0` regardless of the requested duration; when it is non-empty,
the summary carries `min_strength` and reports the duration recorded in
`scan_info`. -/
theorem min_strength_presence_and_duration (band : String) (dur : Int)
    (st : String) (flag : Nat → Bool) (oracle : Oracle) (fuel : Nat) :
    ((scan_band band dur st flag oracle fuel).devices = [] →
      (scan_band band dur st flag oracle fuel).summary.min_strength = none ∧
      (scan_band band dur st flag oracle fuel).summary.duration = 0) ∧
    ((scan_band band dur st flag oracle fuel).devices ≠ [] →
      ((scan_band band dur st flag oracle fuel).summary.min_strength.isSome = true) ∧
      (scan_band band dur st flag oracle fuel).summary.duration =
        (scan_band band dur st flag oracle fuel).scan_info.duration) := by
  constructor
  · intro hempty
    have : (scan_band band dur st flag oracle fuel).summary =
        generate_summary ((scan_band band dur st flag oracle fuel).devices) dur := rfl
    rw [this, hempty]
    exact ⟨rfl, rfl⟩
  · intro hne
    have hsum : (scan_band band dur st flag oracle fuel).summary =
        generate_summary ((scan_band band dur st flag oracle fuel).devices) dur := rfl
    match hdev : (scan_band band dur st flag oracle fuel).devices, hne with
    | d :: ds, _ =>
      rw [hsum, hdev]
      exact ⟨rfl, rfl⟩

/-- Witness for claim C10, applying the theorem both to a scan that
accumulates no devices (zero fuel) and to a scan that accumulates one. -/
theorem min_strength_presence_and_duration_witness :
    ((scan_band "2.4G" 60 "t0" (fun _ => true) oracleC5 0).devices = [] ∧
     (scan_band "2.4G" 60 "t0" (fun _ => true) oracleC5 0).summary.min_strength = none ∧
     (scan_band "2.4G" 60 "t0" (fun _ => true) oracleC5 0).summary.duration = 0) ∧
    ((scan_band "2.4G" 60 "t0" (fun _ => true) oracleC5 1).devices ≠ [] ∧
     (scan_band "2.4G" 60 "t0" (fun _ => true) oracleC5 1).summary.min_strength.isSome =
       true ∧
     (scan_band "2.4G" 60 "t0" (fun _ => true) oracleC5 1).summary.duration =
       (scan_band "2.4G" 60 "t0" (fun _ => true) oracleC5 1).scan_info.duration) :=
  ⟨⟨rfl,
    ((min_strength_presence_and_duration "2.4G" 60 "t0" (fun _ => true) oracleC5 0).1
      rfl).1,
    ((min_strength_presence_and_duration "2.4G" 60 "t0" (fun _ => true) oracleC5 0).1
      rfl).2⟩,
   ⟨by decide,
    ((min_strength_presence_and_duration "2.4G" 60 "t0" (fun _ => true) oracleC5 1).2
      (by decide)).1,
    ((min_strength_presence_and_duration "2.4G" 60 "t0" (fun _ => true) oracleC5 1).2
      (by decide)).2⟩⟩

/-- JSON values, the target of `json.dump` in `cli.run_scan` and the source
of `json.load` in `cli.run_analyze`. -/
inductive Json where
  | jnull : Json
  | jint : Int → Json
  | jstr : String → Json
  | jarr : List Json → Json
  | jobj : List (String × Json) → Json

/-- `json.dump` on one device dict: every field is serializable (ints,
strings, and `None` encoded as `null`). -/
def serializeDevice (d : Device) : Json :=
  Json.jobj
    [("channel", Json.jint d.channel),
     ("strength", Json.jint d.strength),
     ("ssid", match d.ssid with | none => Json.jnull | some s => Json.jstr s),
     ("band", Json.jstr d.band),
     ("security", Json.jstr d.security),
     ("first_seen", Json.jstr d.first_seen),
     ("last_seen", Json.jstr d.last_seen)]

/-- `json.dump` on the value stored under `summary['channels']`: a Python
`list` of ints serializes to a JSON array, while a Python `set` is not JSON
serializable (`json.dump` raises `TypeError`), modelled as `none`. -/
def serializeChannels : PyChannels → Option Json
  | .pyList l => some (Json.jarr (l.map Json.jint))
  | .pySet _ => none

/-- `json.dump` on the `summary` dict; fails exactly when the channels
value is a Python set. -/
def serializeSummary (s : Summary) : Option Json :=
  match serializeChannels s.channels with
  | none => none
  | some cj =>
    some (Json.jobj
      ([("total_signals", Json.jint (s.total_signals : Int)),
        ("avg_strength", Json.jint s.avg_strength),
        ("max_strength", Json.jint s.max_strength)] ++
       (match s.min_strength with
        | none => []
        | some m => [("min_strength", Json.jint m)]) ++
       [("channels", cj), ("duration", Json.jint s.duration)]))

/-- `json.dump` on the `scan_info` dict (always serializable). -/
def serializeScanInfo (si : ScanInfo) : Json :=
  Json.jobj
    [("band", Json.jstr si.band),
     ("channels", Json.jarr (si.channels.map Json.jint)),
     ("start_time", Json.jstr si.start_time),
     ("duration", Json.jint si.duration)]

/-- `json.dump(results, f)` in `cli.run_scan`: serializes the whole scan
result, failing (with `TypeError`) if any contained value is not JSON
serializable. -/
def serializeScanResult (r : ScanResult) : Option Json :=
  match serializeSummary r.summary with
  | none => none
  | some sj =>
    some (Json.jobj
      [("devices", Json.jarr (r.devices.map serializeDevice)),
       ("scan_info", serializeScanInfo r.scan_info),
       ("summary", sj)])

/-- Key lookup in a decoded JSON object, first match wins. -/
def jlookup (key : String) : List (String × Json) → Option Json
  | [] => none
  | (k, v) :: rest => if k = key then some v else jlookup key rest

/-- Reading an int field from decoded JSON. -/
def asInt : Json → Option Int
  | .jint n => some n
  | _ => none

/-- Reading a string field from decoded JSON. -/
def asStr : Json → Option String
  | .jstr s => some s
  | _ => none

/-- Reading a nullable string field from decoded JSON. -/
def asOptStr : Json → Option (Option String)
  | .jnull => some none
  | .jstr s => some (some s)
  | _ => none

/-- Decoding one device dict back from its persisted JSON form. -/
def deserializeDevice : Json → Option Device
  | .jobj fields =>
    match (jlookup "channel" fields).bind asInt,
        (jlookup "strength" fields).bind asInt,
        (jlookup "ssid" fields).bind asOptStr,
        (jlookup "band" fields).bind asStr,
        (jlookup "security" fields).bind asStr,
        (jlookup "first_seen" fields).bind asStr,
        (jlookup "last_seen" fields).bind asStr with
    | some ch, some stg, some ss, some b, some sec, some fs, some ls =>
      some
        { channel := ch
          strength := stg
          ssid := ss
          band := b
          security := sec
          first_seen := fs
          last_seen := ls }
    | _, _, _, _, _, _, _ => none
  | _ => none

/-- Serializing one device and decoding it back reproduces the device with
all its field values. -/
theorem deserialize_serializeDevice (d : Device) :
    deserializeDevice (serializeDevice d) = some d := by
  cases d with
  | mk ch stg ss b sec fs ls => cases ss <;> rfl

/-- Serializing a devices sequence and decoding it back reproduces an equal
sequence, in the same order, with the same field values. -/
theorem devices_roundtrip (l : List Device) :
    (l.map serializeDevice).map deserializeDevice = l.map some := by
  induction l with
  | nil => rfl
  | cons d ds ih =>
    simp only [List.map_cons, ih, deserialize_serializeDevice d]

/-- Claim C3 (code evaluated at the failing input): a scan that accumulates
no devices — here a scan whose time budget allows zero rounds — stores the
Python `set()` under `summary['channels']`, and `json.dump` on such a
result raises `TypeError` (modelled as `serializeScanResult` returning
`none`), so the claimed round-trip fails for the empty-devices case. -/
theorem empty_scan_not_serializable :
    (scan_band "2.4G" 0 "t0" (fun _ => true) oracleC5 0).devices = [] ∧
    serializeScanResult (scan_band "2.4G" 0 "t0" (fun _ => true) oracleC5 0) = none :=
  ⟨rfl, rfl⟩

/-- A device record as consumed by `SignalVisualizer.analyze_results` from a
loaded JSON document: `channel` and `strength` are accessed directly
(required), while `ssid` and `security` are read with `.get(...)` and may
be absent. -/
structure RawDevice where
  channel : Int
  strength : Int
  ssid : Option String
  security : Option String
  deriving DecidableEq, Repr

/-- `device.get('security', 'Unknown')` in `analyze_results`: the sentinel
`"Unknown"` is substituted for a missing security field. -/
def securityKey (d : RawDevice) : String := d.security.getD "Unknown"

/-- Reading a Python dict, `m.get(k, default)`, on the insertion-ordered
association-list model of a dict. -/
def dictGet (m : List (String × Nat)) (k : String) (dflt : Nat) : Nat :=
  match m with
  | [] => dflt
  | (k', v) :: rest => if k' = k then v else dictGet rest k dflt

/-- Writing a Python dict, `m[k] = v`: an existing key keeps its position
with its value replaced, a new key is appended at the end (Python dicts
preserve insertion order). -/
def dictSet (m : List (String × Nat)) (k : String) (v : Nat) :
    List (String × Nat) :=
  match m with
  | [] => [(k, v)]
  | (k', v') :: rest =>
    if k' = k then (k', v) :: rest else (k', v') :: dictSet rest k v

/-- The security-type grouping loop of `analyze_results`:
`security[sec] = security.get(sec, 0) + 1` over the devices in order,
starting from the empty dict. -/
def securityCounts (devices : List RawDevice) : List (String × Nat) :=
  devices.foldl
    (fun m d => dictSet m (securityKey d) (dictGet m (securityKey d) 0 + 1)) []

/-- The distinct values of a list in order of first occurrence, as a left
fold appending each unseen value; formalizes "first-seen iteration order". -/
def firstSeenOrder (l : List String) : List String :=
  l.foldl (fun acc k => if k ∈ acc then acc else acc ++ [k]) []

/-- Reading back a dict after a write: the written key has the new value,
every other key is unchanged. -/
theorem dictGet_dictSet (m : List (String × Nat)) (k s : String) (v dflt : Nat) :
    dictGet (dictSet m k v) s dflt = if s = k then v else dictGet m s dflt := by
  induction m with
  | nil =>
    by_cases h : s = k
    · subst h
      simp [dictSet, dictGet]
    · simp [dictSet, dictGet, h, Ne.symm h]
  | cons e rest ih =>
    obtain ⟨k', v'⟩ := e
    by_cases hk : k' = k
    · subst hk
      by_cases hs : k' = s
      · subst hs
        simp [dictSet, dictGet]
      · simp [dictSet, dictGet, hs, Ne.symm hs]
    · by_cases hs : k' = s
      · subst hs
        simp [dictSet, dictGet, hk]
      · simp only [dictSet, if_neg hk, dictGet, if_neg hs]
        rw [ih]

/-- A dict write keeps the key sequence when the key exists and appends the
key at the end otherwise. -/
theorem keys_dictSet (m : List (String × Nat)) (k : String) (v : Nat) :
    (dictSet m k v).map Prod.fst =
      if k ∈ m.map Prod.fst then m.map Prod.fst else m.map Prod.fst ++ [k] := by
  induction m with
  | nil => simp [dictSet]
  | cons e rest ih =>
    obtain ⟨k', v'⟩ := e
    by_cases hk : k' = k
    · subst hk
      simp [dictSet]
    · simp only [dictSet, if_neg hk, List.map_cons, ih]
      by_cases hmem : k ∈ rest.map Prod.fst
      · rw [if_pos hmem, if_pos (by simp [hmem])]
      · rw [if_neg hmem, if_neg (by simp [hmem, Ne.symm hk])]
        simp

/-- Invariant of the grouping loop: after folding the devices into any
starting dict, the value read for each key is the starting value plus the
number of devices whose (sentinel-substituted) security equals the key. -/
theorem dictGet_securityFold (ds : List RawDevice) :
    ∀ (m : List (String × Nat)) (s : String),
      dictGet (ds.foldl
        (fun m d => dictSet m (securityKey d) (dictGet m (securityKey d) 0 + 1)) m) s 0 =
        dictGet m s 0 + (ds.map securityKey).count s := by
  induction ds with
  | nil => intro m s; simp
  | cons d ds ih =>
    intro m s
    rw [List.foldl_cons, ih]
    by_cases h : s = securityKey d
    · subst h
      rw [dictGet_dictSet, if_pos rfl]
      simp [List.count_cons]
      omega
    · rw [dictGet_dictSet, if_neg h]
      simp [List.count_cons, h]

/-- Invariant of the grouping loop: the key sequence of the folded dict
extends the starting key sequence by the unseen keys in first-seen order. -/
theorem keys_securityFold (ds : List RawDevice) :
    ∀ m : List (String × Nat),
      (ds.foldl
        (fun m d => dictSet m (securityKey d) (dictGet m (securityKey d) 0 + 1)) m).map
          Prod.fst =
        (ds.map securityKey).foldl
          (fun acc k => if k ∈ acc then acc else acc ++ [k]) (m.map Prod.fst) := by
  induction ds with
  | nil => intro m; rfl
  | cons d ds ih =>
    intro m
    rw [List.foldl_cons, ih, List.map_cons, List.foldl_cons, keys_dictSet]

/-- Claim C7: the security-type grouping maps each security value to its
number of occurrences, iterates in first-seen order, and substitutes the
sentinel `"Unknown"` for a record with no security field; on security
values `["WPA2", "Open", "WPA2"]` it yields `[("WPA2", 2), ("Open", 1)]`
with `"WPA2"` first in iteration order. -/
theorem security_grouping (devices : List RawDevice) :
    (∀ s : String,
      dictGet (securityCounts devices) s 0 = (devices.map securityKey).count s) ∧
    (securityCounts devices).map Prod.fst = firstSeenOrder (devices.map securityKey) ∧
    securityCounts
        [⟨1, -50, none, some "WPA2"⟩, ⟨6, -60, none, some "Open"⟩,
         ⟨11, -70, none, some "WPA2"⟩] = [("WPA2", 2), ("Open", 1)] ∧
    securityKey ⟨1, -50, none, none⟩ = "Unknown" := by
  refine ⟨?_, ?_, by decide, rfl⟩
  · intro s
    simpa [securityCounts, dictGet] using dictGet_securityFold devices [] s
  · simpa [securityCounts, firstSeenOrder] using keys_securityFold devices []

/-- One insertion step of the embedding of Python's stable
`sorted(devices, key=lambda x: x['strength'], reverse=True)`: the new
element is placed after every already-placed element whose strength is at
least its own, so left-to-right insertion of the input reproduces the
stable descending order (equal keys keep their original relative order). -/
def insertDesc (d : RawDevice) : List RawDevice → List RawDevice
  | [] => [d]
  | h :: t => if h.strength < d.strength then d :: h :: t else h :: insertDesc d t

/-- `sorted(devices, key=lambda x: x['strength'], reverse=True)` in
`analyze_results` (any stable sort by the same key computes the same
list). -/
def sortDesc (devices : List RawDevice) : List RawDevice :=
  devices.foldl (fun acc d => insertDesc d acc) []

/-- `sorted(...)[:5]`: the top-5 strongest-signals list of
`analyze_results`. -/
def topStrongest (devices : List RawDevice) : List RawDevice :=
  (sortDesc devices).take 5

/-- Inserting into a list permutes consing onto it. -/
theorem insertDesc_perm (d : RawDevice) :
    ∀ l : List RawDevice, (insertDesc d l).Perm (d :: l) := by
  intro l
  induction l with
  | nil => exact List.Perm.refl _
  | cons h t ih =>
    by_cases hf : h.strength < d.strength
    · rw [insertDesc, if_pos hf]
    · rw [insertDesc, if_neg hf]
      exact (ih.cons h).trans (List.Perm.swap d h t)

/-- Insertion preserves descending sortedness by strength. -/
theorem insertDesc_sorted (d : RawDevice) :
    ∀ l : List RawDevice, l.Pairwise (fun a b => b.strength ≤ a.strength) →
      (insertDesc d l).Pairwise (fun a b => b.strength ≤ a.strength) := by
  intro l
  induction l with
  | nil =>
    intro _
    exact List.pairwise_singleton _ _
  | cons h t ih =>
    intro hs
    obtain ⟨hhead, htail⟩ := List.pairwise_cons.mp hs
    by_cases hf : h.strength < d.strength
    · rw [insertDesc, if_pos hf]
      refine List.pairwise_cons.mpr ⟨?_, hs⟩
      intro b hb
      rcases List.mem_cons.mp hb with rfl | hb
      · exact le_of_lt hf
      · exact le_trans (hhead b hb) (le_of_lt hf)
    · rw [insertDesc, if_neg hf]
      refine List.pairwise_cons.mpr ⟨?_, ih htail⟩
      intro b hb
      rcases List.mem_cons.mp ((insertDesc_perm d t).mem_iff.mp hb) with rfl | hb
      · exact not_lt.mp hf
      · exact hhead b hb

/-- Stability of one insertion on a sorted list: among the elements of any
fixed strength, the inserted element comes last, all others keep their
order. -/
theorem insertDesc_filter (d : RawDevice) (s : Int) :
    ∀ l : List RawDevice, l.Pairwise (fun a b => b.strength ≤ a.strength) →
      (insertDesc d l).filter (fun x => decide (x.strength = s)) =
        if d.strength = s then
          l.filter (fun x => decide (x.strength = s)) ++ [d]
        else l.filter (fun x => decide (x.strength = s)) := by
  intro l
  induction l with
  | nil =>
    intro _
    by_cases hd : d.strength = s
    · simp [insertDesc, hd]
    · simp [insertDesc, hd]
  | cons h t ih =>
    intro hs
    obtain ⟨hhead, htail⟩ := List.pairwise_cons.mp hs
    by_cases hf : h.strength < d.strength
    · rw [insertDesc, if_pos hf]
      by_cases hd : d.strength = s
      · rw [if_pos hd]
        have hnil : (h :: t).filter (fun x => decide (x.strength = s)) = [] := by
          rw [List.filter_eq_nil_iff]
          intro a ha
          have hle : a.strength ≤ h.strength := by
            rcases List.mem_cons.mp ha with rfl | ha
            · exact le_refl _
            · exact hhead a ha
          have hlt : a.strength < s := lt_of_le_of_lt hle (hd ▸ hf)
          simp [ne_of_lt hlt]
        simp [List.filter_cons, hd, hnil]
      · rw [if_neg hd]
        simp [List.filter_cons, hd]
    · rw [insertDesc, if_neg hf, List.filter_cons, ih htail]
      by_cases hd : d.strength = s
      · by_cases hh : h.strength = s
        · simp [List.filter_cons, hd, hh]
        · simp [List.filter_cons, hd, hh]
      · by_cases hh : h.strength = s
        · simp [List.filter_cons, hd, hh]
        · simp [List.filter_cons, hd, hh]

/-- The sort is descending by strength. -/
theorem sortDesc_sorted (devices : List RawDevice) :
    (sortDesc devices).Pairwise (fun a b => b.strength ≤ a.strength) := by
  suffices h : ∀ (l acc : List RawDevice),
      acc.Pairwise (fun a b => b.strength ≤ a.strength) →
      (l.foldl (fun acc d => insertDesc d acc) acc).Pairwise
        (fun a b => b.strength ≤ a.strength) from
    h devices [] List.Pairwise.nil
  intro l
  induction l with
  | nil => intro acc h; exact h
  | cons d l ih => intro acc h; exact ih _ (insertDesc_sorted d acc h)

/-- The sort permutes its input. -/
theorem sortDesc_perm (devices : List RawDevice) :
    (sortDesc devices).Perm devices := by
  suffices h : ∀ (l acc : List RawDevice),
      (l.foldl (fun acc d => insertDesc d acc) acc).Perm (acc ++ l) from by
    simpa using h devices []
  intro l
  induction l with
  | nil => intro acc; simp
  | cons d l ih =>
    intro acc
    rw [List.foldl_cons]
    refine (ih (insertDesc d acc)).trans ?_
    refine (List.Perm.append_right l (insertDesc_perm d acc)).trans ?_
    exact List.perm_middle.symm

/-- Stability of the sort: for each strength value, the subsequence of
elements with that strength is unchanged, i.e. equal keys keep their
original relative order. -/
theorem sortDesc_filter (devices : List RawDevice) (s : Int) :
    (sortDesc devices).filter (fun x => decide (x.strength = s)) =
      devices.filter (fun x => decide (x.strength = s)) := by
  suffices h : ∀ (l acc : List RawDevice),
      acc.Pairwise (fun a b => b.strength ≤ a.strength) →
      (l.foldl (fun acc d => insertDesc d acc) acc).filter
          (fun x => decide (x.strength = s)) =
        acc.filter (fun x => decide (x.strength = s)) ++
          l.filter (fun x => decide (x.strength = s)) from by
    simpa using h devices [] List.Pairwise.nil
  intro l
  induction l with
  | nil => intro acc _; simp
  | cons d l ih =>
    intro acc hacc
    rw [List.foldl_cons, ih _ (insertDesc_sorted d acc hacc),
      insertDesc_filter d s acc hacc, List.filter_cons]
    by_cases hd : d.strength = s
    · rw [if_pos hd, if_pos (by simp [hd])]
      simp
    · rw [if_neg hd, if_neg (by simp [hd])]

/-- Claim C8: the top-5 strongest-signals list is the first five elements
of a stable descending sort by strength — the sort permutes the devices, is
descending, and keeps equal-strength elements in their original relative
order; on strengths `[-30, -90, -30, -45]` the two `-30` devices retain
their original order. -/
theorem top5_stable_sort (devices : List RawDevice) :
    topStrongest devices = (sortDesc devices).take 5 ∧
    (sortDesc devices).Perm devices ∧
    (sortDesc devices).Pairwise (fun a b => b.strength ≤ a.strength) ∧
    (∀ s : Int, (sortDesc devices).filter (fun x => decide (x.strength = s)) =
      devices.filter (fun x => decide (x.strength = s))) ∧
    topStrongest
        [⟨1, -30, none, none⟩, ⟨2, -90, none, none⟩, ⟨3, -30, none, none⟩,
         ⟨4, -45, none, none⟩] =
      [⟨1, -30, none, none⟩, ⟨3, -30, none, none⟩, ⟨4, -45, none, none⟩,
       ⟨2, -90, none, none⟩] :=
  ⟨rfl, sortDesc_perm devices, sortDesc_sorted devices, sortDesc_filter devices,
   by decide⟩
